import Mathlib

/-!
A shallow embedding of the vmaxtui voxel pipeline (sources:
`src/oomer_voxel_vmax.h`, `src/oomer_filequeue.h`, `src/vmaxtui.cpp`)
together with theorems settling the specification claims.

Machine integers are modelled as `Nat` with explicit `% 2^w` at every
point where the C++ source converts between integer widths.  Fallible
behaviour (an out-of-bounds `std::vector` read, which is undefined
behaviour in C++) is modelled with `Option`: a `none` result marks an
execution that performs an out-of-bounds access.
-/

namespace Vmaxtui

/-- `compactBits` from `oomer_voxel_vmax.h` lines 199-207: keeps every
third bit of a 32-bit word and compacts them into the low bits.  All
intermediate values of the C++ `uint32_t` pipeline stay below `2^32`,
so plain `Nat` bit operations coincide with the source arithmetic. -/
def compactBits (n : Nat) : Nat :=
  let n0 := n &&& 0x49249249
  let n1 := (n0 ^^^ (n0 >>> 2)) &&& 0xc30c30c3
  let n2 := (n1 ^^^ (n1 >>> 4)) &&& 0x0f00f00f
  let n3 := (n2 ^^^ (n2 >>> 8)) &&& 0x00ff00ff
  (n3 ^^^ (n3 >>> 16)) &&& 0x0000ffff

/-- `decodeMorton3DOptimized` from `oomer_voxel_vmax.h` lines 209-214.
The C++ parameter is `uint32_t`, so every caller's argument is
truncated modulo `2^32` at the call boundary; that truncation is made
explicit here. -/
def decodeMorton3DOptimized (morton : Nat) : Nat × Nat × Nat :=
  let m := morton % 2 ^ 32
  (compactBits m, compactBits (m >>> 1), compactBits (m >>> 2))

/-- Modelled from the spec: the Morton codec's `encode3` operation
(spec section 4.1) has no implementation under `src/` (only the
decoder exists there).  `spread3` places bit `i` of its argument at
bit `3*i` of the result, for the low 11 bits. -/
def spread3 (n : Nat) : Nat :=
  ((n >>> 0) &&& 1) <<< 0 +
  ((n >>> 1) &&& 1) <<< 3 +
  ((n >>> 2) &&& 1) <<< 6 +
  ((n >>> 3) &&& 1) <<< 9 +
  ((n >>> 4) &&& 1) <<< 12 +
  ((n >>> 5) &&& 1) <<< 15 +
  ((n >>> 6) &&& 1) <<< 18 +
  ((n >>> 7) &&& 1) <<< 21 +
  ((n >>> 8) &&& 1) <<< 24 +
  ((n >>> 9) &&& 1) <<< 27 +
  ((n >>> 10) &&& 1) <<< 30

/-- Modelled from the spec: `encode3(x, y, z)` interleaves bits so
that bit `i` of `x` lands at bit `3i`, bit `i` of `y` at `3i+1`, and
bit `i` of `z` at `3i+2` (spec section 4.1). -/
def encode3 (x y z : Nat) : Nat :=
  spread3 x ||| spread3 y <<< 1 ||| spread3 z <<< 2

/-- The `VmaxVoxel` record from `oomer_voxel_vmax.h` lines 181-197.
Field widths in the source: `x`, `y`, `z`, `material`, `palette` are
`uint8_t`; `chunkID` and `minMorton` are `uint16_t`. -/
structure VmaxVoxel where
  x : Nat
  y : Nat
  z : Nat
  material : Nat
  palette : Nat
  chunkID : Nat
  minMorton : Nat
deriving DecidableEq, Repr

/-- The value of the C++ expression `n - 1` at type `size_t`: ordinary
subtraction for positive `n`, wrap-around to `2^64 - 1` for `n = 0`.
Used by the loop bound `i < dsData.size() - 1` of `decodeVoxels`. -/
def usizePred (n : Nat) : Nat :=
  (n + (2 ^ 64 - 1)) % 2 ^ 64

/-- The loop of `decodeVoxels` (`oomer_voxel_vmax.h` lines 379-399):
`for (int i = 0; i < dsData.size() - 1; i += 2)`, reading bytes
`dsData[i]` (material) and `dsData[i+1]` (color), emitting a voxel at
the Morton decode of `i/2 + mortonOffset` whenever the color byte is
non-zero.  A `none` result models an out-of-bounds vector read.  The
`fuel` argument only makes the recursion structural; `decodeVoxels`
passes more fuel than the loop can ever consume, so the exhaustion
branch is unreachable. -/
def decodeVoxelsLoop (ds : List Nat) (bound mortonOffset chunkID : Nat) :
    Nat → Nat → Option (List VmaxVoxel)
  | 0, _ => none
  | fuel + 1, i =>
    if i < bound then
      if i + 1 < ds.length then
        match decodeVoxelsLoop ds bound mortonOffset chunkID fuel (i + 2) with
        | none => none
        | some rest =>
          some (if ds.getD (i + 1) 0 ≠ 0 then
                  ⟨(decodeMorton3DOptimized (i / 2 + mortonOffset)).1 % 256,
                   (decodeMorton3DOptimized (i / 2 + mortonOffset)).2.1 % 256,
                   (decodeMorton3DOptimized (i / 2 + mortonOffset)).2.2 % 256,
                   ds.getD i 0, ds.getD (i + 1) 0,
                   chunkID, mortonOffset % 2 ^ 16⟩ :: rest
                else rest)
      else none
    else some []

/-- `decodeVoxels` from `oomer_voxel_vmax.h` lines 375-401.  The
parameters mirror the source signature
`decodeVoxels(dsData, mortonOffset, chunkID)`: `mortonOffset` is the
(non-negative) `int` argument and `chunkID` the `uint16_t` argument.
The `uint8_t` casts on the decoded coordinates and the `uint16_t` cast
on the stored offset are the source's `static_cast`s.  The loop makes
at most `⌊len/2⌋ + 1` steps, so `len + 1` fuel never runs out. -/
def decodeVoxels (ds : List Nat) (mortonOffset chunkID : Nat) :
    Option (List VmaxVoxel) :=
  decodeVoxelsLoop ds (usizePred ds.length) mortonOffset chunkID (ds.length + 1) 0

/-- The voxel produced for pair index `j` of a data stream, exactly as
constructed inside `decodeVoxels`. -/
def pairVoxel (mortonOffset chunkID j material color : Nat) : VmaxVoxel :=
  ⟨(decodeMorton3DOptimized (j + mortonOffset)).1 % 256,
   (decodeMorton3DOptimized (j + mortonOffset)).2.1 % 256,
   (decodeMorton3DOptimized (j + mortonOffset)).2.2 % 256,
   material, color, chunkID, mortonOffset % 2 ^ 16⟩

/-- The list of voxels `decodeVoxels` produces on a non-empty stream:
one candidate per complete byte pair, kept when the color byte is
non-zero. -/
def dsPairs (ds : List Nat) (mortonOffset chunkID : Nat) : List VmaxVoxel :=
  (List.range (ds.length / 2)).filterMap fun j =>
    if ds.getD (2 * j + 1) 0 = 0 then none
    else some (pairVoxel mortonOffset chunkID j
                 (ds.getD (2 * j) 0) (ds.getD (2 * j + 1) 0))

/-- The loop body of `vmaxVoxelInfo` (`oomer_voxel_vmax.h` lines
497-517): each decoded voxel is rebuilt with its coordinates offset by
eight times the Morton decode of the chunk ID (`model_8x8x8_* * 8`,
lines 493-495); the `% 256` are the `uint8_t` fields of the rebuilt
`VmaxVoxel` constructor. -/
def chunkShift (chunkID : Nat) (v : VmaxVoxel) : VmaxVoxel :=
  ⟨(8 * (decodeMorton3DOptimized chunkID).1 + v.x) % 256,
   (8 * (decodeMorton3DOptimized chunkID).2.1 + v.y) % 256,
   (8 * (decodeMorton3DOptimized chunkID).2.2 + v.z) % 256,
   v.material, v.palette, v.chunkID, v.minMorton⟩

/-- `vmaxVoxelInfo` from `oomer_voxel_vmax.h` lines 476-526: decodes a
snapshot's data stream, then offsets each voxel into model space.  The
`chunkID % 2^16` is the `uint64_t` to `uint16_t` conversion at the
call of `decodeVoxels`. -/
def vmaxVoxelInfo (ds : List Nat) (chunkID minMorton : Nat) :
    Option (List VmaxVoxel) :=
  (decodeVoxels ds minMorton (chunkID % 2 ^ 16)).map
    fun vs => vs.map (chunkShift chunkID)

/-- The per-snapshot data consumed by the assembly loop of
`convertVmaxToBella` (`vmaxtui.cpp` lines 824-843): the chunk ID
(`s.id.c`), the Morton base offset (`s.st.min[3]`), and the raw data
stream bytes (`s.ds`). -/
structure VmaxSnapshot where
  chunkID : Nat
  minMorton : Nat
  ds : List Nat
deriving DecidableEq, Repr

/-- `VmaxModel::addVoxel` from `oomer_voxel_vmax.h` lines 247-251: the
voxel is stored only when `material < 8` and `0 < color < 256`; the
`chunk` and `chunkMin` `int` arguments are narrowed to the voxel's
`uint16_t` fields. -/
def storeVoxel (chunk chunkMin : Nat) (v : VmaxVoxel) : Option VmaxVoxel :=
  if v.material < 8 ∧ 0 < v.palette ∧ v.palette < 256 then
    some ⟨v.x, v.y, v.z, v.material, v.palette, chunk % 2 ^ 16, chunkMin % 2 ^ 16⟩
  else none

/-- One snapshot's contribution to the model: its decode filtered
through `addVoxel` (`vmaxtui.cpp` lines 838-842). -/
def snapshotVoxels (s : VmaxSnapshot) : Option (List VmaxVoxel) :=
  (vmaxVoxelInfo s.ds s.chunkID s.minMorton).map
    fun vs => vs.filterMap (storeVoxel s.chunkID s.minMorton)

/-- Concatenation of optional voxel lists, propagating decode
failure. -/
def appendOpt (o acc : Option (List VmaxVoxel)) : Option (List VmaxVoxel) :=
  match o, acc with
  | some vs, some tail => some (vs ++ tail)
  | _, _ => none

/-- The snapshot loop of `convertVmaxToBella` (`vmaxtui.cpp` lines
824-843): every snapshot of the array is decoded with `vmaxVoxelInfo`
and ALL of its voxels are added to the current model with `addVoxel`.
The model's `8 × 256` bucket table is flattened to one list in
snapshot order; the claims settled against it only concern which
voxels the model contains. -/
def assembleModel (snaps : List VmaxSnapshot) : Option (List VmaxVoxel) :=
  (snaps.map snapshotVoxels).foldr appendOpt (some [])

/-- The per-voxel world translation computed by `addModelToScene`
(`vmaxtui.cpp` lines 670-683): the chunk ID is Morton-decoded again
and each coordinate is offset by `24 *` the chunk coordinate. -/
def sceneWorldPos (v : VmaxVoxel) : Nat × Nat × Nat :=
  (v.x + 24 * (decodeMorton3DOptimized v.chunkID).1,
   v.y + 24 * (decodeMorton3DOptimized v.chunkID).2.1,
   v.z + 24 * (decodeMorton3DOptimized v.chunkID).2.2)

/-- `VmaxRGBA` from `oomer_voxel_vmax.h` lines 142-144. -/
structure VmaxRGBA where
  r : Nat
  g : Nat
  b : Nat
  a : Nat
deriving DecidableEq, Repr

/-- A successfully decoded image as returned by `stbi_load` with four
desired channels: `pix` lists the RGBA bytes, four per pixel, row
major, `4 * width * height` bytes in total. -/
structure DecodedImage where
  width : Nat
  height : Nat
  pix : List Nat
deriving DecidableEq, Repr

/-- `read256x1PaletteFromPNG` from `oomer_voxel_vmax.h` lines 147-173,
after a successful decode: the loop `for (int i = 0; i < width; i++)`
reads four bytes per pixel and appends one color per pixel of the
image's width (a dimension mismatch only prints a warning). -/
def read256x1PaletteFromPNG (img : DecodedImage) : List VmaxRGBA :=
  (List.range img.width).map fun i =>
    ⟨img.pix.getD (i * 4) 0, img.pix.getD (i * 4 + 1) 0,
     img.pix.getD (i * 4 + 2) 0, img.pix.getD (i * 4 + 3) 0⟩

/-- `endsWith` from `oomer_filequeue.h` lines 231-236: suffix test,
false when the string is shorter than the suffix. -/
def endsWith (str suffix : String) : Bool :=
  if str.length < suffix.length then false
  else str.data.drop (str.length - suffix.length) == suffix.data

/-- `FileQueue` from `oomer_filequeue.h` lines 37-142: an ordered
vector of paths plus a lookup map.  `pathMap` lists the keys of the
`std::map<std::string, bool>` (every stored value is `true`, so only
the key set matters; key order is irrelevant to the claims). -/
structure FileQueue where
  pathVector : List String
  pathMap : List String
deriving DecidableEq, Repr

/-- The default-constructed (empty) queue. -/
def FileQueue.init : FileQueue := ⟨[], []⟩

/-- `FileQueue::contains` (lines 114-117). -/
def FileQueue.contains (q : FileQueue) (p : String) : Bool :=
  q.pathMap.contains p

/-- `FileQueue::push` (lines 65-73): append iff the path is not in the
map; returns whether it appended. -/
def FileQueue.push (q : FileQueue) (p : String) : Bool × FileQueue :=
  if q.pathMap.contains p then (false, q)
  else (true, ⟨q.pathVector ++ [p], p :: q.pathMap⟩)

/-- `FileQueue::pop` (lines 76-85): remove and return the front of the
vector and erase it from the map. -/
def FileQueue.pop (q : FileQueue) : Option String × FileQueue :=
  match q.pathVector with
  | [] => (none, q)
  | p :: rest => (some p, ⟨rest, q.pathMap.erase p⟩)

/-- `FileQueue::probe` (lines 88-95): return the front without
removing it. -/
def FileQueue.probe (q : FileQueue) : Option String :=
  q.pathVector.head?

/-- `FileQueue::remove` (lines 98-111): erase-remove all occurrences
from the vector and erase the key from the map, when present. -/
def FileQueue.remove (q : FileQueue) (p : String) : Bool × FileQueue :=
  if q.pathMap.contains p then
    (true, ⟨q.pathVector.filter (fun s => s != p), q.pathMap.erase p⟩)
  else (false, q)

/-- `FileQueue::size` (lines 120-123). -/
def FileQueue.size (q : FileQueue) : Nat :=
  q.pathVector.length

/-- `FileQueue::clear` (lines 132-136). -/
def FileQueue.clear (_q : FileQueue) : FileQueue :=
  ⟨[], []⟩

/-- The `efsw` file actions dispatched by
`UpdateListener::handleFileAction`. -/
inductive EfswAction where
  | add
  | modified
  | delete
  | moved
deriving DecidableEq, Repr

/-- `UpdateListener::handleFileAction` from `oomer_filequeue.h` lines
179-218, acting on the dispatcher's add queue (`fileQueue_`) and
remove queue (`unfileQueue_`).  The guard of the add branch keeps the
source's operator precedence: `&&` binds tighter than `||`, so the
`download/` test only constrains the `.zip` alternative (line 206). -/
def handleFileAction (shouldStop : Bool) (action : EfswAction)
    (dir filename : String) (fileQueue unfileQueue : FileQueue) :
    FileQueue × FileQueue :=
  if shouldStop then (fileQueue, unfileQueue)
  else
    let belPath := dir ++ filename
    let unfileQueue1 :=
      if action = EfswAction.delete then
        if endsWith belPath ".bsz" then
          if unfileQueue.contains belPath then unfileQueue
          else (unfileQueue.push belPath).2
        else unfileQueue
      else unfileQueue
    let fileQueue1 :=
      if action = EfswAction.add ∨ action = EfswAction.modified then
        if endsWith belPath ".vmax" || endsWith belPath ".bsz" ||
            (endsWith belPath ".zip" && !endsWith dir "download/") then
          if fileQueue.contains belPath then fileQueue
          else (fileQueue.push belPath).2
        else fileQueue
      else fileQueue
    (fileQueue1, unfileQueue1)

/-- One operation on a `FileQueue` (its public mutating interface). -/
inductive QueueOp where
  | push (p : String)
  | pop
  | probe
  | remove (p : String)
  | clear
deriving DecidableEq, Repr

/-- Apply one queue operation (the state change it causes). -/
def applyOp (q : FileQueue) : QueueOp → FileQueue
  | QueueOp.push p => (q.push p).2
  | QueueOp.pop => q.pop.2
  | QueueOp.probe => q
  | QueueOp.remove p => (q.remove p).2
  | QueueOp.clear => q.clear

/-- Run a sequence of queue operations from the empty queue. -/
def runOps (ops : List QueueOp) : FileQueue :=
  ops.foldl applyOp FileQueue.init

/-- The internal consistency of a `FileQueue`: both containers are
duplicate-free and hold the same paths. -/
def QueueInv (q : FileQueue) : Prop :=
  q.pathVector.Nodup ∧ q.pathMap.Nodup ∧
    ∀ p, p ∈ q.pathMap ↔ p ∈ q.pathVector

/-- The state of the render loop of `DL_main` (`vmaxtui.cpp` lines
399-485) observable across iterations: the two persistent queues, the
`active_render` atomic, and whether the engine is running. -/
structure RenderLoopState where
  renderQueue : FileQueue
  renderUnqueue : FileQueue
  activeRender : Bool
  engineRunning : Bool
deriving DecidableEq, Repr

/-- The `while (queue.pop(path)) persistent.push(path)` transfer
(`vmaxtui.cpp` lines 411-427), with the incoming queue's contents
given in FIFO order. -/
def drainInto (q : FileQueue) (paths : List String) : FileQueue :=
  paths.foldl (fun acc p => (acc.push p).2) q

/-- The delete-drain loop (`vmaxtui.cpp` lines 465-474): each path
popped from the remove queue is compared against the loop-local
`currentRender`; on a match the engine is stopped and the render slot
released, otherwise the path is removed from the render queue if
queued.  Returns the updated render queue, `active_render`, and engine
state. -/
def drainRemovals : List String → FileQueue → String → Bool → Bool →
    FileQueue × Bool × Bool
  | [], rq, _, activeRender, engineRunning => (rq, activeRender, engineRunning)
  | p :: rest, rq, localCurrent, activeRender, engineRunning =>
    if p == localCurrent then
      drainRemovals rest rq localCurrent false false
    else if rq.contains p then
      drainRemovals rest (rq.remove p).2 localCurrent activeRender engineRunning
    else
      drainRemovals rest rq localCurrent activeRender engineRunning

/-- One iteration of the render loop (`vmaxtui.cpp` lines 406-485).
`incomingAdds` and `incomingRemoves` are the dispatcher queues drained
this tick.  Faithful to the source, `currentRender` is a local
variable declared inside the loop body (line 448, shadowing the global
of line 217), so it is the empty string whenever the delete-drain
comparison runs.  Starting a `.bsz` render sets the engine running; a
`.vmax` pop runs the conversion with the render slot held. -/
def loopIter (st : RenderLoopState) (incomingAdds incomingRemoves : List String) :
    RenderLoopState :=
  let ru0 := if st.renderQueue.pathVector.isEmpty then st.renderUnqueue.clear
             else st.renderUnqueue
  let rq1 := drainInto st.renderQueue incomingAdds
  let ru1 := drainInto ru0 incomingRemoves
  let localCurrentRender := ""
  if rq1.pathVector.isEmpty then
    { renderQueue := rq1, renderUnqueue := ru1,
      activeRender := st.activeRender, engineRunning := st.engineRunning }
  else
    if st.activeRender then
      let res := drainRemovals ru1.pathVector rq1 localCurrentRender
                   st.activeRender st.engineRunning
      { renderQueue := res.1, renderUnqueue := ru1.clear,
        activeRender := res.2.1, engineRunning := res.2.2 }
    else
      match rq1.pop with
      | (some path, rq2) =>
        if endsWith path ".bsz" then
          { renderQueue := rq2, renderUnqueue := ru1,
            activeRender := true, engineRunning := true }
        else
          { renderQueue := rq2, renderUnqueue := ru1,
            activeRender := true, engineRunning := st.engineRunning }
      | (none, rq2) =>
        { renderQueue := rq2, renderUnqueue := ru1,
          activeRender := true, engineRunning := st.engineRunning }

end Vmaxtui

namespace Vmaxtui

/-! ### Bitwise helper lemmas -/

theorem land_shiftRight (a b k : Nat) :
    (a &&& b) >>> k = (a >>> k) &&& (b >>> k) := by
  apply Nat.eq_of_testBit_eq
  intro i
  simp [Nat.testBit_shiftRight, Nat.testBit_and]

theorem lor_shiftRight (a b k : Nat) :
    (a ||| b) >>> k = (a >>> k) ||| (b >>> k) := by
  apply Nat.eq_of_testBit_eq
  intro i
  simp [Nat.testBit_shiftRight, Nat.testBit_or]

theorem lor_land_right (a b c : Nat) :
    (a ||| b) &&& c = (a &&& c) ||| (b &&& c) := by
  apply Nat.eq_of_testBit_eq
  intro i
  simp only [Nat.testBit_and, Nat.testBit_or]
  cases a.testBit i <;> cases b.testBit i <;> cases c.testBit i <;> rfl

theorem xor_land_mask (a m1 b m2 c : Nat) :
    ((a &&& m1) ^^^ (b &&& m2)) &&& c =
      ((a &&& m1) ^^^ (b &&& m2)) &&& ((m1 ||| m2) &&& c) := by
  apply Nat.eq_of_testBit_eq
  intro i
  simp only [Nat.testBit_and, Nat.testBit_xor, Nat.testBit_or]
  cases a.testBit i <;> cases m1.testBit i <;> cases b.testBit i <;>
    cases m2.testBit i <;> cases c.testBit i <;> rfl

theorem land_low_mask (m M k : Nat) (hm : m < 2 ^ k) :
    m &&& M = m &&& (M % 2 ^ k) := by
  apply Nat.eq_of_testBit_eq
  intro i
  simp only [Nat.testBit_and, Nat.testBit_mod_two_pow]
  by_cases hi : i < k
  · simp [hi]
  · have hz : m.testBit i = false :=
      Nat.testBit_lt_two_pow
        (lt_of_lt_of_le hm (Nat.pow_le_pow_right (by norm_num) (by omega)))
    simp [hz]

theorem shiftRight_zero_of_lt (s k : Nat) (h : s < 2 ^ k) : s >>> k = 0 := by
  rw [Nat.shiftRight_eq_div_pow]
  exact Nat.div_eq_of_lt h

theorem compactBits_congr (m n : Nat)
    (h : m &&& 0x49249249 = n &&& 0x49249249) :
    compactBits m = compactBits n := by
  simp only [compactBits]
  rw [h]

theorem compactBits_lt_32 (m : Nat) (hm : m < 2 ^ 15) : compactBits m < 32 := by
  have h0 : m &&& 0x49249249 = m &&& 0x1249 := by
    rw [land_low_mask m 0x49249249 15 hm]
    norm_num
  simp only [compactBits]
  rw [h0]
  rw [land_shiftRight m 0x1249 2]
  rw [show (0x1249 : Nat) >>> 2 = 0x492 by decide]
  rw [xor_land_mask m 0x1249 (m >>> 2) 0x492 0xc30c30c3]
  rw [show ((0x1249 : Nat) ||| 0x492) &&& 0xc30c30c3 = 0x10c3 by decide]
  generalize (m &&& 0x1249) ^^^ (m >>> 2 &&& 0x492) = t1
  rw [land_shiftRight t1 0x10c3 4]
  rw [show (0x10c3 : Nat) >>> 4 = 0x10c by decide]
  rw [xor_land_mask t1 0x10c3 (t1 >>> 4) 0x10c 0x0f00f00f]
  rw [show ((0x10c3 : Nat) ||| 0x10c) &&& 0x0f00f00f = 0x100f by decide]
  generalize (t1 &&& 0x10c3) ^^^ (t1 >>> 4 &&& 0x10c) = t2
  rw [land_shiftRight t2 0x100f 8]
  rw [show (0x100f : Nat) >>> 8 = 0x10 by decide]
  rw [xor_land_mask t2 0x100f (t2 >>> 8) 0x10 0x00ff00ff]
  rw [show ((0x100f : Nat) ||| 0x10) &&& 0x00ff00ff = 0x1f by decide]
  generalize (t2 &&& 0x100f) ^^^ (t2 >>> 8 &&& 0x10) = t3
  have hle : t3 &&& 0x1f ≤ 0x1f := Nat.and_le_right
  have hz : (t3 &&& 0x1f) >>> 16 = 0 :=
    shiftRight_zero_of_lt _ 16 (by omega)
  rw [hz, Nat.xor_zero]
  have hfin : (t3 &&& 0x1f) &&& 0xffff ≤ t3 &&& 0x1f := Nat.and_le_left
  omega

theorem compactBits_lt_8 (m : Nat) (hm : m < 2 ^ 9) : compactBits m < 8 := by
  have h0 : m &&& 0x49249249 = m &&& 0x49 := by
    rw [land_low_mask m 0x49249249 9 hm]
    norm_num
  simp only [compactBits]
  rw [h0]
  rw [land_shiftRight m 0x49 2]
  rw [show (0x49 : Nat) >>> 2 = 0x12 by decide]
  rw [xor_land_mask m 0x49 (m >>> 2) 0x12 0xc30c30c3]
  rw [show ((0x49 : Nat) ||| 0x12) &&& 0xc30c30c3 = 0x43 by decide]
  generalize (m &&& 0x49) ^^^ (m >>> 2 &&& 0x12) = t1
  rw [land_shiftRight t1 0x43 4]
  rw [show (0x43 : Nat) >>> 4 = 0x4 by decide]
  rw [xor_land_mask t1 0x43 (t1 >>> 4) 0x4 0x0f00f00f]
  rw [show ((0x43 : Nat) ||| 0x4) &&& 0x0f00f00f = 0x7 by decide]
  generalize (t1 &&& 0x43) ^^^ (t1 >>> 4 &&& 0x4) = t2
  rw [land_shiftRight t2 0x7 8]
  rw [show (0x7 : Nat) >>> 8 = 0x0 by decide]
  rw [xor_land_mask t2 0x7 (t2 >>> 8) 0x0 0x00ff00ff]
  rw [show ((0x7 : Nat) ||| 0x0) &&& 0x00ff00ff = 0x7 by decide]
  generalize (t2 &&& 0x7) ^^^ (t2 >>> 8 &&& 0x0) = t3
  have hle : t3 &&& 0x7 ≤ 0x7 := Nat.and_le_right
  have hz : (t3 &&& 0x7) >>> 16 = 0 :=
    shiftRight_zero_of_lt _ 16 (by omega)
  rw [hz, Nat.xor_zero]
  have hfin : (t3 &&& 0x7) &&& 0xffff ≤ t3 &&& 0x7 := Nat.and_le_left
  omega

theorem spread3_facts : ∀ v, v < 32 →
    compactBits (spread3 v) = v ∧
    spread3 v &&& 0x49249249 = spread3 v ∧
    (spread3 v <<< 1) &&& 0x49249249 = 0 ∧
    (spread3 v <<< 2) &&& 0x49249249 = 0 ∧
    (spread3 v >>> 1) &&& 0x49249249 = 0 ∧
    (spread3 v >>> 2) &&& 0x49249249 = 0 ∧
    spread3 v < 2 ^ 15 := by decide

theorem shiftLeft_one_shiftRight_one (n : Nat) : (n <<< 1) >>> 1 = n := by
  simp [Nat.shiftLeft_eq, Nat.shiftRight_eq_div_pow]

theorem shiftLeft_two_shiftRight_one (n : Nat) : (n <<< 2) >>> 1 = n <<< 1 := by
  simp only [Nat.shiftLeft_eq, Nat.shiftRight_eq_div_pow]
  omega

theorem shiftLeft_two_shiftRight_two (n : Nat) : (n <<< 2) >>> 2 = n := by
  simp [Nat.shiftLeft_eq, Nat.shiftRight_eq_div_pow]

theorem shiftLeft_one_shiftRight_two (n : Nat) : (n <<< 1) >>> 2 = n >>> 1 := by
  simp only [Nat.shiftLeft_eq, Nat.shiftRight_eq_div_pow]
  omega

/-- Claim C5: for all coordinates in `[0, 31]` (and symmetrically in
`[0, 7]`), decoding the Morton code obtained by interleaving `x`, `y`,
`z` (bit `i` of `x` at position `3i`, of `y` at `3i+1`, of `z` at
`3i+2`) returns exactly `(x, y, z)`:
`decode3 (encode3 x y z) = (x, y, z)`. -/
theorem morton_roundtrip :
    (∀ x, x < 32 → ∀ y, y < 32 → ∀ z, z < 32 →
        decodeMorton3DOptimized (encode3 x y z) = (x, y, z)) ∧
    (∀ x, x < 8 → ∀ y, y < 8 → ∀ z, z < 8 →
        decodeMorton3DOptimized (encode3 x y z) = (x, y, z)) := by
  have main : ∀ x, x < 32 → ∀ y, y < 32 → ∀ z, z < 32 →
      decodeMorton3DOptimized (encode3 x y z) = (x, y, z) := by
    intro x hx y hy z hz
    obtain ⟨cbx, mskx, sl1x, sl2x, sr1x, sr2x, bndx⟩ := spread3_facts x hx
    obtain ⟨cby, msky, sl1y, sl2y, sr1y, sr2y, bndy⟩ := spread3_facts y hy
    obtain ⟨cbz, mskz, sl1z, sl2z, sr1z, sr2z, bndz⟩ := spread3_facts z hz
    have e1 : spread3 x < 2 ^ 32 := lt_of_lt_of_le bndx (by norm_num)
    have e2 : spread3 y <<< 1 < 2 ^ 32 := by
      rw [Nat.shiftLeft_eq]
      have h15 : spread3 y < 2 ^ 15 := bndy
      norm_num at h15 ⊢
      omega
    have e3 : spread3 z <<< 2 < 2 ^ 32 := by
      rw [Nat.shiftLeft_eq]
      have h15 : spread3 z < 2 ^ 15 := bndz
      norm_num at h15 ⊢
      omega
    have hbnd : encode3 x y z < 2 ^ 32 := by
      simp only [encode3]
      exact Nat.or_lt_two_pow (Nat.or_lt_two_pow e1 e2) e3
    have hmod : encode3 x y z % 2 ^ 32 = encode3 x y z := Nat.mod_eq_of_lt hbnd
    have hx1 : encode3 x y z &&& 0x49249249 = spread3 x &&& 0x49249249 := by
      simp only [encode3]
      rw [lor_land_right, lor_land_right, sl1y, sl2z]
      simp
    have hy1 : (encode3 x y z >>> 1) &&& 0x49249249 =
        spread3 y &&& 0x49249249 := by
      simp only [encode3]
      rw [lor_shiftRight, lor_shiftRight, shiftLeft_one_shiftRight_one,
        shiftLeft_two_shiftRight_one]
      rw [lor_land_right, lor_land_right, sr1x, sl1z]
      simp
    have hz1 : (encode3 x y z >>> 2) &&& 0x49249249 =
        spread3 z &&& 0x49249249 := by
      simp only [encode3]
      rw [lor_shiftRight, lor_shiftRight, shiftLeft_one_shiftRight_two,
        shiftLeft_two_shiftRight_two]
      rw [lor_land_right, lor_land_right, sr2x, sr1y]
      simp
    have hcx : compactBits (encode3 x y z) = x :=
      (compactBits_congr _ _ hx1).trans cbx
    have hcy : compactBits (encode3 x y z >>> 1) = y :=
      (compactBits_congr _ _ hy1).trans cby
    have hcz : compactBits (encode3 x y z >>> 2) = z :=
      (compactBits_congr _ _ hz1).trans cbz
    simp only [decodeMorton3DOptimized]
    rw [hmod, hcx, hcy, hcz]
  refine ⟨main, fun x hx y hy z hz => main x (by omega) y (by omega) z (by omega)⟩

/-- Witness for C5: the round-trip at the concrete inputs `(3, 5, 7)`
(range `[0,31]`) and `(1, 2, 3)` (range `[0,7]`). -/
theorem morton_roundtrip_witness :
    decodeMorton3DOptimized (encode3 3 5 7) = (3, 5, 7) ∧
    decodeMorton3DOptimized (encode3 1 2 3) = (1, 2, 3) :=
  ⟨morton_roundtrip.1 3 (by norm_num) 5 (by norm_num) 7 (by norm_num),
   morton_roundtrip.2 1 (by norm_num) 2 (by norm_num) 3 (by norm_num)⟩

/-! ### Chunk decoder characterization -/

theorem usizePred_of_pos (n : Nat) (h1 : 1 ≤ n) (h2 : n < 2 ^ 64) :
    usizePred n = n - 1 := by
  unfold usizePred
  have he : (2 : Nat) ^ 64 = 18446744073709551616 := by norm_num
  rw [he] at h2 ⊢
  omega

theorem usizePred_zero_eq : usizePred 0 = 2 ^ 64 - 1 := by
  unfold usizePred
  norm_num

theorem filterMap_congr_mem {α β : Type} (l : List α) (f g : α → Option β)
    (h : ∀ a ∈ l, f a = g a) : l.filterMap f = l.filterMap g := by
  induction l with
  | nil => rfl
  | cons a l ih =>
    rw [List.filterMap_cons, List.filterMap_cons, h a (by simp),
      ih fun x hx => h x (by simp [hx])]

theorem decodeVoxelsLoop_range (ds : List Nat) (b k : Nat)
    (h1 : 1 ≤ ds.length) :
    ∀ n j fuel, ds.length / 2 - j = n → n < fuel →
      decodeVoxelsLoop ds (ds.length - 1) b k fuel (2 * j) =
        some ((List.range' j n).filterMap fun t =>
          if ds.getD (2 * t + 1) 0 = 0 then none
          else some (pairVoxel b k t (ds.getD (2 * t) 0)
                       (ds.getD (2 * t + 1) 0))) := by
  intro n
  induction n with
  | zero =>
    intro j fuel hj hfuel
    obtain ⟨f, rfl⟩ : ∃ f, fuel = f + 1 := ⟨fuel - 1, by omega⟩
    unfold decodeVoxelsLoop
    rw [if_neg (by omega)]
    simp
  | succ n ih =>
    intro j fuel hj hfuel
    obtain ⟨f, rfl⟩ : ∃ f, fuel = f + 1 := ⟨fuel - 1, by omega⟩
    have hcond : 2 * j < ds.length - 1 := by omega
    have hread : 2 * j + 1 < ds.length := by omega
    have hdiv : 2 * j / 2 = j := by omega
    unfold decodeVoxelsLoop
    rw [if_pos hcond, if_pos hread]
    rw [show 2 * j + 2 = 2 * (j + 1) by ring, ih (j + 1) f (by omega) (by omega)]
    rw [List.range'_succ, List.filterMap_cons]
    by_cases hc : ds[2 * j + 1]?.getD 0 = 0
    · simp [hc, pairVoxel, hdiv]
    · simp [hc, pairVoxel, hdiv]

theorem decodeVoxels_eq_dsPairs (ds : List Nat) (b k : Nat) (hne : ds ≠ [])
    (hlen : ds.length < 2 ^ 64) :
    decodeVoxels ds b k = some (dsPairs ds b k) := by
  have h1 : 1 ≤ ds.length := List.length_pos.mpr hne
  unfold decodeVoxels
  rw [usizePred_of_pos _ h1 hlen]
  have h := decodeVoxelsLoop_range ds b k h1 (ds.length / 2) 0
    (ds.length + 1) (by omega) (by omega)
  rw [show 2 * 0 = 0 from rfl] at h
  rw [h]
  unfold dsPairs
  rw [List.range_eq_range']

theorem decodeVoxels_nil (b k : Nat) : decodeVoxels [] b k = none := by
  unfold decodeVoxels decodeVoxelsLoop
  rw [if_pos (by norm_num [usizePred])]
  simp

/-- Claim C4: the claim is right and the code is wrong.  The loop
bound `i < dsData.size() - 1` underflows at type `size_t` on the empty
stream, so the very first iteration reads `dsData[0]` out of bounds
(modelled by the `none` result); the spec's error model promises clean
termination with no voxels instead. -/
theorem decodeVoxels_empty_oob : ∀ b k, decodeVoxels [] b k = none :=
  fun b k => decodeVoxels_nil b k

/-- Counterexample for C3 as frozen: on the empty byte stream the
claim demands that the decoder emit nothing (zero pairs), but the code
performs an out-of-bounds read instead of returning the empty voxel
list. -/
theorem decodeVoxels_empty_ctrex : decodeVoxels [] 0 0 ≠ some [] := by
  rw [decodeVoxels_nil]
  exact fun h => Option.noConfusion h

/-- Claim C3 (amended): for every NON-EMPTY byte stream `ds` (offsets
and pair count within the 32768-voxel chunk range, chunk ID within its
`uint16_t` range), the decoder emits, for each pair index
`j < ⌊len ds / 2⌋` with bytes `(m, c) = (ds[2j], ds[2j+1])`, exactly
one voxel with local coordinates `decode3 (j + b)`, material `m`,
palette `c`, chunk ID `k`, and offset `b` when `c ≠ 0`, and emits
nothing for that pair when `c = 0`; a trailing odd byte is ignored.
On the empty stream the code instead performs an out-of-bounds read
(see the counterexample). -/
theorem decodeVoxels_pair_spec (ds : List Nat) (b k : Nat) (hne : ds ≠ [])
    (hb : b + ds.length / 2 ≤ 32768) :
    decodeVoxels ds b k =
      some ((List.range (ds.length / 2)).filterMap fun j =>
        if ds.getD (2 * j + 1) 0 = 0 then none
        else some ⟨(decodeMorton3DOptimized (j + b)).1,
                   (decodeMorton3DOptimized (j + b)).2.1,
                   (decodeMorton3DOptimized (j + b)).2.2,
                   ds.getD (2 * j) 0, ds.getD (2 * j + 1) 0, k, b % 2 ^ 16⟩) := by
  have hlen : ds.length < 2 ^ 64 := by
    have hhalf : ds.length / 2 ≤ 32768 := by omega
    have hle : ds.length ≤ 65537 := by omega
    exact lt_of_le_of_lt hle (by norm_num)
  rw [decodeVoxels_eq_dsPairs ds b k hne hlen]
  unfold dsPairs
  congr 1
  apply filterMap_congr_mem
  intro j hj
  rw [List.mem_range] at hj
  have hjb : j + b < 32768 := by omega
  simp only [List.getD_eq_getElem?_getD]
  by_cases hc : ds[2 * j + 1]?.getD 0 = 0
  · simp [hc]
  · have h15 : j + b < 2 ^ 15 := by norm_num; omega
    have hmod : (j + b) % 2 ^ 32 = j + b :=
      Nat.mod_eq_of_lt (lt_of_lt_of_le h15 (by norm_num))
    have hd1 : compactBits (j + b) < 32 := compactBits_lt_32 _ h15
    have hd2 : compactBits ((j + b) >>> 1) < 32 := by
      apply compactBits_lt_32
      rw [Nat.shiftRight_eq_div_pow]
      exact lt_of_le_of_lt (Nat.div_le_self _ _) h15
    have hd3 : compactBits ((j + b) >>> 2) < 32 := by
      apply compactBits_lt_32
      rw [Nat.shiftRight_eq_div_pow]
      exact lt_of_le_of_lt (Nat.div_le_self _ _) h15
    simp only [if_neg hc]
    unfold pairVoxel
    simp only [decodeMorton3DOptimized, hmod]
    rw [Nat.mod_eq_of_lt (show compactBits (j + b) < 256 by omega),
      Nat.mod_eq_of_lt (show compactBits ((j + b) >>> 1) < 256 by omega),
      Nat.mod_eq_of_lt (show compactBits ((j + b) >>> 2) < 256 by omega)]

/-- Witness for C3 (amended): the stream `[0x00, 0x00, 0x01, 0x05]`
with offset 0 and chunk ID 3 yields exactly one voxel, at local
position `decode3 1 = (1, 0, 0)`, material 1, palette 5. -/
theorem decodeVoxels_pair_spec_witness :
    (([0, 0, 1, 5] : List Nat) ≠ [] ∧
      0 + ([0, 0, 1, 5] : List Nat).length / 2 ≤ 32768) ∧
    decodeVoxels [0, 0, 1, 5] 0 3 = some [⟨1, 0, 0, 1, 5, 3, 0⟩] :=
  ⟨⟨by decide, by decide⟩,
   (decodeVoxels_pair_spec [0, 0, 1, 5] 0 3 (by decide) (by decide)).trans
     (by decide)⟩

/-! ### Model assembly -/

theorem assembleModel_nil : assembleModel [] = some [] := rfl

theorem assembleModel_single (s : VmaxSnapshot) (us : List VmaxVoxel)
    (h : vmaxVoxelInfo s.ds s.chunkID s.minMorton = some us) :
    assembleModel [s] =
      some (us.filterMap (storeVoxel s.chunkID s.minMorton)) := by
  unfold assembleModel
  rw [List.map_cons, List.map_nil, List.foldr_cons, List.foldr_nil]
  unfold snapshotVoxels
  rw [h, Option.map_some']
  show some (us.filterMap (storeVoxel s.chunkID s.minMorton) ++ []) = _
  rw [List.append_nil]

theorem vmaxVoxelInfo_1516 :
    vmaxVoxelInfo [1, 5, 1, 6] 0 0 =
      some [⟨0, 0, 0, 1, 5, 0, 0⟩, ⟨1, 0, 0, 1, 6, 0, 0⟩] := by
  have h := decodeVoxels_eq_dsPairs [1, 5, 1, 6] 0 (0 % 2 ^ 16)
    (by decide) (by norm_num)
  unfold vmaxVoxelInfo
  rw [h]
  decide

theorem vmaxVoxelInfo_17 :
    vmaxVoxelInfo [1, 7] 0 0 = some [⟨0, 0, 0, 1, 7, 0, 0⟩] := by
  have h := decodeVoxels_eq_dsPairs [1, 7] 0 (0 % 2 ^ 16)
    (by decide) (by norm_num)
  unfold vmaxVoxelInfo
  rw [h]
  decide

/-- Claim C1: the claim is right and the code is wrong.  The assembly
loop of `convertVmaxToBella` adds the voxels of EVERY snapshot to the
model and never replaces the voxels of an earlier snapshot with the
same chunk ID, contradicting the file's own embedded format
specification (`vmaxtui.cpp` lines 87-90: "Later snapshots for the
same chunk ID overwrite earlier ones").  Evaluated at two snapshots
for chunk 0, the model holds all three voxels — both of the first
snapshot's voxels (palettes 5 and 6) and the later snapshot's voxel
(palette 7) — where the claim demands exactly the one voxel of the
latest snapshot, whose decode is `[⟨0,0,0,1,7,0,0⟩]` alone. -/
theorem assembleModel_keeps_all_snapshots :
    assembleModel [⟨0, 0, [1, 5, 1, 6]⟩, ⟨0, 0, [1, 7]⟩] =
      some [⟨0, 0, 0, 1, 5, 0, 0⟩, ⟨1, 0, 0, 1, 6, 0, 0⟩,
            ⟨0, 0, 0, 1, 7, 0, 0⟩] ∧
    vmaxVoxelInfo [1, 7] 0 0 = some [⟨0, 0, 0, 1, 7, 0, 0⟩] := by
  constructor
  · unfold assembleModel
    rw [List.map_cons, List.map_cons, List.map_nil, List.foldr_cons,
      List.foldr_cons, List.foldr_nil]
    unfold snapshotVoxels
    rw [vmaxVoxelInfo_1516, vmaxVoxelInfo_17]
    decide
  · exact vmaxVoxelInfo_17

theorem assembleModel_single_15 :
    assembleModel [⟨1, 0, [1, 5]⟩] = some [⟨8, 0, 0, 1, 5, 1, 0⟩] := by
  have h := decodeVoxels_eq_dsPairs [1, 5] 0 (1 % 2 ^ 16)
    (by decide) (by norm_num)
  have hinfo : vmaxVoxelInfo [1, 5] 1 0 = some [⟨8, 0, 0, 1, 5, 1, 0⟩] := by
    unfold vmaxVoxelInfo
    rw [h]
    decide
  rw [assembleModel_single ⟨1, 0, [1, 5]⟩ _ hinfo]
  decide

/-- Counterexample for C2 as frozen: the snapshot with chunk ID 1
(whose Morton decode is `(1, 0, 0)`) and single decoded local voxel at
`(0, 0, 0)` is stored in the model at position `x = 8` — that is
`8 * cx + local_x` — and not at `32 * cx + local_x = 32` as the claim
states. -/
theorem assembler_stores_8cx_ctrex :
    assembleModel [⟨1, 0, [1, 5]⟩] = some [⟨8, 0, 0, 1, 5, 1, 0⟩] ∧
    decodeMorton3DOptimized 1 = (1, 0, 0) ∧
    decodeMorton3DOptimized (0 + 0) = (0, 0, 0) ∧
    (8 : Nat) ≠ 32 * 1 + 0 :=
  ⟨assembleModel_single_15, by decide, by decide, by decide⟩

/-- Claim C2 (amended): for every snapshot with chunk ID `c < 512`
(Morton decode `(cx, cy, cz)`) and offsets within the chunk range,
every voxel the assembler stores in the model for a decoded local
voxel `(lx, ly, lz) = decode3 (j + b)` carries position
`(cx*8 + lx, cy*8 + ly, cz*8 + lz)`; the scene composer then adds
`(cx*24, cy*24, cz*24)` to it, so the voxel's world translation in the
composed scene is `(cx*32 + lx, cy*32 + ly, cz*32 + lz)`, as the claim
states — but only after the composer's offset, not in the model
itself. -/
theorem assembler_world_coords (s : VmaxSnapshot) (hc : s.chunkID < 512)
    (hb : s.minMorton + s.ds.length / 2 ≤ 32768) (hne : s.ds ≠ [])
    (vs : List VmaxVoxel) (hvs : assembleModel [s] = some vs)
    (v : VmaxVoxel) (hv : v ∈ vs) :
    ∃ j < s.ds.length / 2,
      v.material = s.ds.getD (2 * j) 0 ∧
      v.palette = s.ds.getD (2 * j + 1) 0 ∧
      v.x = 8 * (decodeMorton3DOptimized s.chunkID).1 +
              (decodeMorton3DOptimized (j + s.minMorton)).1 ∧
      v.y = 8 * (decodeMorton3DOptimized s.chunkID).2.1 +
              (decodeMorton3DOptimized (j + s.minMorton)).2.1 ∧
      v.z = 8 * (decodeMorton3DOptimized s.chunkID).2.2 +
              (decodeMorton3DOptimized (j + s.minMorton)).2.2 ∧
      sceneWorldPos v =
        (32 * (decodeMorton3DOptimized s.chunkID).1 +
           (decodeMorton3DOptimized (j + s.minMorton)).1,
         32 * (decodeMorton3DOptimized s.chunkID).2.1 +
           (decodeMorton3DOptimized (j + s.minMorton)).2.1,
         32 * (decodeMorton3DOptimized s.chunkID).2.2 +
           (decodeMorton3DOptimized (j + s.minMorton)).2.2) := by
  have hlen : s.ds.length < 2 ^ 64 := by
    have hle : s.ds.length ≤ 65537 := by omega
    exact lt_of_le_of_lt hle (by norm_num)
  have hk16 : s.chunkID % 2 ^ 16 = s.chunkID :=
    Nat.mod_eq_of_lt (lt_of_lt_of_le hc (by norm_num))
  have hc32 : s.chunkID % 2 ^ 32 = s.chunkID :=
    Nat.mod_eq_of_lt (lt_of_lt_of_le hc (by norm_num))
  have hc9 : s.chunkID < 2 ^ 9 := lt_of_lt_of_le hc (by norm_num)
  have hcx : compactBits s.chunkID < 8 := compactBits_lt_8 _ hc9
  have hcy : compactBits (s.chunkID >>> 1) < 8 := by
    apply compactBits_lt_8
    rw [Nat.shiftRight_eq_div_pow]
    exact lt_of_le_of_lt (Nat.div_le_self _ _) hc9
  have hcz : compactBits (s.chunkID >>> 2) < 8 := by
    apply compactBits_lt_8
    rw [Nat.shiftRight_eq_div_pow]
    exact lt_of_le_of_lt (Nat.div_le_self _ _) hc9
  have hinfo : vmaxVoxelInfo s.ds s.chunkID s.minMorton =
      some ((dsPairs s.ds s.minMorton s.chunkID).map (chunkShift s.chunkID)) := by
    unfold vmaxVoxelInfo
    rw [decodeVoxels_eq_dsPairs s.ds s.minMorton (s.chunkID % 2 ^ 16) hne hlen,
      hk16]
    rfl
  have hvs2 : vs = ((dsPairs s.ds s.minMorton s.chunkID).map
      (chunkShift s.chunkID)).filterMap (storeVoxel s.chunkID s.minMorton) :=
    Option.some_injective _
      ((assembleModel_single s _ hinfo).symm.trans hvs) |>.symm
  rw [hvs2, List.filterMap_map] at hv
  rw [List.mem_filterMap] at hv
  obtain ⟨w, hw, hst⟩ := hv
  unfold dsPairs at hw
  rw [List.mem_filterMap] at hw
  obtain ⟨j, hjr, hjw⟩ := hw
  rw [List.mem_range] at hjr
  refine ⟨j, hjr, ?_⟩
  have hjb : j + s.minMorton < 32768 := by omega
  have h15 : j + s.minMorton < 2 ^ 15 := by norm_num; omega
  have hmod : (j + s.minMorton) % 2 ^ 32 = j + s.minMorton :=
    Nat.mod_eq_of_lt (lt_of_lt_of_le h15 (by norm_num))
  have hd1 : compactBits (j + s.minMorton) < 32 := compactBits_lt_32 _ h15
  have hd2 : compactBits ((j + s.minMorton) >>> 1) < 32 := by
    apply compactBits_lt_32
    rw [Nat.shiftRight_eq_div_pow]
    exact lt_of_le_of_lt (Nat.div_le_self _ _) h15
  have hd3 : compactBits ((j + s.minMorton) >>> 2) < 32 := by
    apply compactBits_lt_32
    rw [Nat.shiftRight_eq_div_pow]
    exact lt_of_le_of_lt (Nat.div_le_self _ _) h15
  by_cases hcz0 : s.ds.getD (2 * j + 1) 0 = 0
  · rw [if_pos hcz0] at hjw
    exact absurd hjw (by simp)
  · rw [if_neg hcz0] at hjw
    have hw2 : w = pairVoxel s.minMorton s.chunkID j (s.ds.getD (2 * j) 0)
        (s.ds.getD (2 * j + 1) 0) := (Option.some_injective _ hjw).symm
    subst hw2
    have hxval : (pairVoxel s.minMorton s.chunkID j (s.ds.getD (2 * j) 0)
        (s.ds.getD (2 * j + 1) 0)).x = compactBits (j + s.minMorton) := by
      unfold pairVoxel
      simp only [decodeMorton3DOptimized, hmod]
      exact Nat.mod_eq_of_lt (by omega)
    have hyval : (pairVoxel s.minMorton s.chunkID j (s.ds.getD (2 * j) 0)
        (s.ds.getD (2 * j + 1) 0)).y = compactBits ((j + s.minMorton) >>> 1) := by
      unfold pairVoxel
      simp only [decodeMorton3DOptimized, hmod]
      exact Nat.mod_eq_of_lt (by omega)
    have hzval : (pairVoxel s.minMorton s.chunkID j (s.ds.getD (2 * j) 0)
        (s.ds.getD (2 * j + 1) 0)).z = compactBits ((j + s.minMorton) >>> 2) := by
      unfold pairVoxel
      simp only [decodeMorton3DOptimized, hmod]
      exact Nat.mod_eq_of_lt (by omega)
    simp only [Function.comp_apply] at hst
    rw [show chunkShift s.chunkID (pairVoxel s.minMorton s.chunkID j
        (s.ds.getD (2 * j) 0) (s.ds.getD (2 * j + 1) 0)) =
        ⟨8 * compactBits s.chunkID + compactBits (j + s.minMorton),
         8 * compactBits (s.chunkID >>> 1) + compactBits ((j + s.minMorton) >>> 1),
         8 * compactBits (s.chunkID >>> 2) + compactBits ((j + s.minMorton) >>> 2),
         s.ds.getD (2 * j) 0, s.ds.getD (2 * j + 1) 0,
         s.chunkID, s.minMorton % 2 ^ 16⟩ from ?_] at hst
    swap
    · unfold chunkShift
      simp only [decodeMorton3DOptimized, hc32, hxval, hyval, hzval]
      rw [Nat.mod_eq_of_lt (by omega), Nat.mod_eq_of_lt (by omega),
        Nat.mod_eq_of_lt (by omega)]
      rfl
    unfold storeVoxel at hst
    split at hst
    · have hv2 := (Option.some_injective _ hst).symm
      subst hv2
      have hsc : (⟨8 * compactBits s.chunkID + compactBits (j + s.minMorton),
          8 * compactBits (s.chunkID >>> 1) + compactBits ((j + s.minMorton) >>> 1),
          8 * compactBits (s.chunkID >>> 2) + compactBits ((j + s.minMorton) >>> 2),
          s.ds.getD (2 * j) 0, s.ds.getD (2 * j + 1) 0,
          s.chunkID, s.minMorton % 2 ^ 16⟩ : VmaxVoxel).x =
          8 * compactBits s.chunkID + compactBits (j + s.minMorton) := rfl
      refine ⟨rfl, rfl, ?_, ?_, ?_, ?_⟩
      · show (8 * compactBits s.chunkID + compactBits (j + s.minMorton) : Nat) = _
        simp only [decodeMorton3DOptimized, hc32, hmod]
      · show (8 * compactBits (s.chunkID >>> 1) +
            compactBits ((j + s.minMorton) >>> 1) : Nat) = _
        simp only [decodeMorton3DOptimized, hc32, hmod]
      · show (8 * compactBits (s.chunkID >>> 2) +
            compactBits ((j + s.minMorton) >>> 2) : Nat) = _
        simp only [decodeMorton3DOptimized, hc32, hmod]
      · unfold sceneWorldPos
        simp only [decodeMorton3DOptimized, hk16, hc32, hmod]
        refine Prod.ext ?_ (Prod.ext ?_ ?_)
        · show (8 * compactBits s.chunkID + compactBits (j + s.minMorton)) +
            24 * compactBits s.chunkID =
            32 * compactBits s.chunkID + compactBits (j + s.minMorton)
          omega
        · show (8 * compactBits (s.chunkID >>> 1) +
            compactBits ((j + s.minMorton) >>> 1)) +
            24 * compactBits (s.chunkID >>> 1) =
            32 * compactBits (s.chunkID >>> 1) +
            compactBits ((j + s.minMorton) >>> 1)
          omega
        · show (8 * compactBits (s.chunkID >>> 2) +
            compactBits ((j + s.minMorton) >>> 2)) +
            24 * compactBits (s.chunkID >>> 2) =
            32 * compactBits (s.chunkID >>> 2) +
            compactBits ((j + s.minMorton) >>> 2)
          omega
    · exact absurd hst (by simp)

/-- Witness for C2 (amended): the snapshot `(chunk 1, offset 0,
ds = [1, 5])` stores the voxel `⟨8, 0, 0, 1, 5, 1, 0⟩`; the theorem
applied there produces its pair index together with the stored
position `8 = 8*1 + 0` and the composed scene position `32 = 32*1 + 0`. -/
theorem assembler_world_coords_witness :
    ((1 : Nat) < 512 ∧ 0 + ([1, 5] : List Nat).length / 2 ≤ 32768 ∧
      ([1, 5] : List Nat) ≠ []) ∧
    ∃ j < ([1, 5] : List Nat).length / 2,
      (⟨8, 0, 0, 1, 5, 1, 0⟩ : VmaxVoxel).material = ([1, 5] : List Nat).getD (2 * j) 0 ∧
      (⟨8, 0, 0, 1, 5, 1, 0⟩ : VmaxVoxel).palette = ([1, 5] : List Nat).getD (2 * j + 1) 0 ∧
      (⟨8, 0, 0, 1, 5, 1, 0⟩ : VmaxVoxel).x = 8 * (decodeMorton3DOptimized 1).1 +
          (decodeMorton3DOptimized (j + 0)).1 ∧
      (⟨8, 0, 0, 1, 5, 1, 0⟩ : VmaxVoxel).y = 8 * (decodeMorton3DOptimized 1).2.1 +
          (decodeMorton3DOptimized (j + 0)).2.1 ∧
      (⟨8, 0, 0, 1, 5, 1, 0⟩ : VmaxVoxel).z = 8 * (decodeMorton3DOptimized 1).2.2 +
          (decodeMorton3DOptimized (j + 0)).2.2 ∧
      sceneWorldPos ⟨8, 0, 0, 1, 5, 1, 0⟩ =
        (32 * (decodeMorton3DOptimized 1).1 + (decodeMorton3DOptimized (j + 0)).1,
         32 * (decodeMorton3DOptimized 1).2.1 + (decodeMorton3DOptimized (j + 0)).2.1,
         32 * (decodeMorton3DOptimized 1).2.2 + (decodeMorton3DOptimized (j + 0)).2.2) :=
  ⟨⟨by decide, by decide, by decide⟩,
   assembler_world_coords ⟨1, 0, [1, 5]⟩ (by decide) (by decide) (by decide)
     [⟨8, 0, 0, 1, 5, 1, 0⟩] assembleModel_single_15
     ⟨8, 0, 0, 1, 5, 1, 0⟩ (by decide)⟩

/-! ### Dispatcher -/

/-- Counterexample for C6 as frozen: an Add event for the `.vmax` file
`a.vmax` in a directory ending in `download/` IS pushed to the add
queue, where the claim demands it not be: the `&&` of the guard binds
tighter than the `||`s, so the `download/` test only constrains the
`.zip` alternative. -/
theorem dispatcher_download_vmax_queued :
    endsWith ("download/" ++ "a.vmax") ".vmax" = true ∧
    endsWith "download/" "download/" = true ∧
    (handleFileAction false EfswAction.add "download/" "a.vmax"
        FileQueue.init FileQueue.init).1.pathVector = ["download/a.vmax"] := by
  refine ⟨by decide, by decide, by decide⟩

/-- Claim C6 (amended): for every Add or Modified event whose path
`dir ++ filename` is not already in the add queue, the path is pushed
iff it ends in `.vmax`, or ends in `.bsz`, or (ends in `.zip` AND the
directory does not end in `download/`); the `download/` exclusion
constrains only the `.zip` alternative.  The remove queue is
untouched. -/
theorem dispatcher_add_rule (action : EfswAction) (dir filename : String)
    (fq uq : FileQueue)
    (ha : action = EfswAction.add ∨ action = EfswAction.modified)
    (hnc : fq.contains (dir ++ filename) = false) :
    handleFileAction false action dir filename fq uq =
      (if endsWith (dir ++ filename) ".vmax" || endsWith (dir ++ filename) ".bsz" ||
          (endsWith (dir ++ filename) ".zip" && !endsWith dir "download/") then
        (fq.push (dir ++ filename)).2
      else fq, uq) := by
  have hnd : ¬(action = EfswAction.delete) := by
    rcases ha with h | h <;> subst h <;> decide
  simp only [handleFileAction, if_neg (show ¬(false = true) by decide),
    if_neg hnd, if_pos ha]
  by_cases hz : (endsWith (dir ++ filename) ".vmax" ||
      endsWith (dir ++ filename) ".bsz" ||
      (endsWith (dir ++ filename) ".zip" && !endsWith dir "download/")) = true
  · rw [if_pos hz, if_pos hz,
      if_neg (show ¬(fq.contains (dir ++ filename) = true) by simp [hnc])]
  · rw [if_neg hz, if_neg hz]

/-- Witness for C6 (amended): an Add event for `watch/m.vmax` on empty
queues, with both hypotheses discharged concretely. -/
theorem dispatcher_add_rule_witness :
    ((EfswAction.add = EfswAction.add ∨ EfswAction.add = EfswAction.modified) ∧
      FileQueue.init.contains ("watch/" ++ "m.vmax") = false) ∧
    handleFileAction false EfswAction.add "watch/" "m.vmax"
        FileQueue.init FileQueue.init =
      (if endsWith ("watch/" ++ "m.vmax") ".vmax" ||
          endsWith ("watch/" ++ "m.vmax") ".bsz" ||
          (endsWith ("watch/" ++ "m.vmax") ".zip" && !endsWith "watch/" "download/")
        then (FileQueue.init.push ("watch/" ++ "m.vmax")).2
        else FileQueue.init, FileQueue.init) :=
  ⟨⟨Or.inl rfl, rfl⟩,
   dispatcher_add_rule EfswAction.add "watch/" "m.vmax" FileQueue.init
     FileQueue.init (Or.inl rfl) rfl⟩

/-! ### Render loop -/

/-- Claim C7: the claim is right and the code is wrong.  The render
loop's `currentRender` is a fresh local declared inside the loop body
(`vmaxtui.cpp` line 448, shadowing the global of line 217), so the
delete-drain's comparison against it always compares with the empty
string.  Evaluated over two iterations — start rendering `a.bsz`, then
delete `a.bsz` while it is in flight (with `b.bsz` queued so the drain
branch runs) — the engine keeps running and the render slot stays
held, where the claim demands the engine stop. -/
theorem renderLoop_delete_inflight_keeps_running :
    (loopIter ⟨FileQueue.init, FileQueue.init, false, false⟩
        ["a.bsz"] []).activeRender = true ∧
    (loopIter ⟨FileQueue.init, FileQueue.init, false, false⟩
        ["a.bsz"] []).engineRunning = true ∧
    (loopIter (loopIter ⟨FileQueue.init, FileQueue.init, false, false⟩
        ["a.bsz"] []) ["b.bsz"] ["a.bsz"]).engineRunning = true ∧
    (loopIter (loopIter ⟨FileQueue.init, FileQueue.init, false, false⟩
        ["a.bsz"] []) ["b.bsz"] ["a.bsz"]).activeRender = true := by
  refine ⟨by decide, by decide, by decide, by decide⟩

/-! ### Queue invariant -/

theorem contains_iff_mem (l : List String) (p : String) :
    l.contains p = true ↔ p ∈ l := by
  induction l with
  | nil => simp
  | cons a rest ih => simp [List.contains_cons, ih]

theorem queueInv_init : QueueInv FileQueue.init :=
  ⟨List.nodup_nil, List.nodup_nil, fun _ => Iff.rfl⟩

theorem queueInv_push (q : FileQueue) (p : String) (h : QueueInv q) :
    QueueInv (q.push p).2 := by
  obtain ⟨hv, hm, hiff⟩ := h
  unfold FileQueue.push
  by_cases hc : q.pathMap.contains p = true
  · rw [if_pos hc]; exact ⟨hv, hm, hiff⟩
  · rw [if_neg hc]
    have hpm : p ∉ q.pathMap := fun hmem => hc ((contains_iff_mem _ _).mpr hmem)
    have hpv : p ∉ q.pathVector := fun hmem => hpm ((hiff p).mpr hmem)
    refine ⟨?_, List.nodup_cons.mpr ⟨hpm, hm⟩, fun x => ?_⟩
    · exact List.nodup_append.mpr
        ⟨hv, List.nodup_singleton p,
         fun a ha hap => hpv (List.mem_singleton.mp hap ▸ ha)⟩
    · show x ∈ p :: q.pathMap ↔ x ∈ q.pathVector ++ [p]
      rw [List.mem_cons, List.mem_append, List.mem_singleton, hiff x]
      tauto

theorem queueInv_pop (q : FileQueue) (h : QueueInv q) : QueueInv q.pop.2 := by
  obtain ⟨vec, map⟩ := q
  obtain ⟨hv, hm, hiff⟩ := h
  cases vec with
  | nil => exact ⟨hv, hm, hiff⟩
  | cons p rest =>
    refine ⟨(List.nodup_cons.mp hv).2, hm.erase p, fun x => ?_⟩
    show x ∈ map.erase p ↔ x ∈ rest
    rw [hm.mem_erase_iff, show (x ∈ map) = (x ∈ p :: rest) from propext (hiff x),
      List.mem_cons]
    have hpn : p ∉ rest := (List.nodup_cons.mp hv).1
    constructor
    · rintro ⟨hne, h | h⟩
      · exact absurd h hne
      · exact h
    · intro hx
      exact ⟨fun he => hpn (he ▸ hx), Or.inr hx⟩

theorem queueInv_remove (q : FileQueue) (p : String) (h : QueueInv q) :
    QueueInv (q.remove p).2 := by
  obtain ⟨hv, hm, hiff⟩ := h
  unfold FileQueue.remove
  by_cases hc : q.pathMap.contains p = true
  · rw [if_pos hc]
    refine ⟨hv.filter _, hm.erase p, fun x => ?_⟩
    show x ∈ q.pathMap.erase p ↔ x ∈ q.pathVector.filter (fun s => s != p)
    rw [hm.mem_erase_iff, List.mem_filter, hiff x]
    constructor
    · rintro ⟨hne, hx⟩
      exact ⟨hx, by simpa using hne⟩
    · rintro ⟨hx, hne⟩
      exact ⟨by simpa using hne, hx⟩
  · rw [if_neg hc]
    exact ⟨hv, hm, hiff⟩

theorem queueInv_applyOp (q : FileQueue) (op : QueueOp) (h : QueueInv q) :
    QueueInv (applyOp q op) := by
  cases op with
  | push p => exact queueInv_push q p h
  | pop => exact queueInv_pop q h
  | probe => exact h
  | remove p => exact queueInv_remove q p h
  | clear => exact queueInv_init

theorem queueInv_foldl (ops : List QueueOp) :
    ∀ q, QueueInv q → QueueInv (ops.foldl applyOp q) := by
  induction ops with
  | nil => intro q h; exact h
  | cons op rest ih =>
    intro q h
    rw [List.foldl_cons]
    exact ih _ (queueInv_applyOp q op h)

/-- Claim C8: for every queue state reachable from the empty queue by
any sequence of push, pop, probe, remove and clear operations, the
ordered path vector and the lookup map agree — they have the same
size, and a path is in the map iff it occurs in the vector. -/
theorem fileQueue_sync (ops : List QueueOp) :
    (runOps ops).pathMap.length = (runOps ops).pathVector.length ∧
    ∀ p, p ∈ (runOps ops).pathMap ↔ p ∈ (runOps ops).pathVector := by
  obtain ⟨hv, hm, hiff⟩ := queueInv_foldl ops FileQueue.init queueInv_init
  exact ⟨((List.perm_ext_iff_of_nodup hm hv).mpr hiff).length_eq, hiff⟩

/-! ### Push specification -/

/-- Counterexample for C9 as frozen: on a queue that already contains
`"a"`, pushing `"a"` twice changes the size by 0, not by exactly 1 —
both pushes are no-ops. -/
theorem fileQueue_double_push_ctrex :
    ¬ ((((⟨["a"], ["a"]⟩ : FileQueue).push "a").2.push "a").2.size =
        (⟨["a"], ["a"]⟩ : FileQueue).size + 1) := by decide

/-- Claim C9 (amended): `push p` appends `p` and returns true iff `p`
is absent from the queue, and is a no-op returning false otherwise;
when `p` is absent beforehand, pushing twice grows the size by exactly
one (the second push is a no-op).  On a queue already holding `p` the
size is unchanged (see the counterexample). -/
theorem fileQueue_push_spec (q : FileQueue) (p : String)
    (h : q.pathMap.contains p = false) :
    (q.push p).1 = true ∧
    (q.push p).2.pathVector = q.pathVector ++ [p] ∧
    ((q.push p).2.push p).2.size = q.size + 1 := by
  have h1 : q.push p = (true, ⟨q.pathVector ++ [p], p :: q.pathMap⟩) := by
    unfold FileQueue.push
    rw [if_neg (show ¬(q.pathMap.contains p = true) by rw [h]; decide)]
  have h2 : (⟨q.pathVector ++ [p], p :: q.pathMap⟩ : FileQueue).push p =
      (false, ⟨q.pathVector ++ [p], p :: q.pathMap⟩) := by
    unfold FileQueue.push
    rw [if_pos (by simp [List.contains_cons])]
  simp [h1, h2, FileQueue.size]

/-- Witness for C9 (amended): pushing `"a.bsz"` twice onto the empty
queue returns true then leaves the size at exactly one. -/
theorem fileQueue_push_spec_witness :
    (FileQueue.init.pathMap.contains "a.bsz" = false) ∧
    ((FileQueue.init.push "a.bsz").1 = true ∧
     (FileQueue.init.push "a.bsz").2.pathVector =
       FileQueue.init.pathVector ++ ["a.bsz"] ∧
     ((FileQueue.init.push "a.bsz").2.push "a.bsz").2.size =
       FileQueue.init.size + 1) :=
  ⟨rfl, fileQueue_push_spec FileQueue.init "a.bsz" rfl⟩

/-! ### Palette loader -/

/-- Counterexample for C10 as frozen: a decodable 2×1 image yields a
palette of 2 entries, not 256 — the read loop is bounded by the
image's width, not by 256. -/
theorem palette_width_ctrex :
    (read256x1PaletteFromPNG ⟨2, 1, [1, 2, 3, 4, 5, 6, 7, 8]⟩).length = 2 ∧
    (read256x1PaletteFromPNG ⟨2, 1, [1, 2, 3, 4, 5, 6, 7, 8]⟩).length ≠ 256 := by
  refine ⟨by decide, by decide⟩

/-- Claim C10 (amended): the palette loader returns exactly `width`
entries — one RGBA entry per pixel of the image's width, entry `i`
holding the four bytes at offsets `4i .. 4i+3` — so it returns 256
entries (reading 256 pixels) exactly when the width is 256. -/
theorem palette_reads_width (img : DecodedImage) :
    (read256x1PaletteFromPNG img).length = img.width ∧
    ∀ i, i < img.width →
      (read256x1PaletteFromPNG img).getD i ⟨0, 0, 0, 0⟩ =
        ⟨img.pix.getD (i * 4) 0, img.pix.getD (i * 4 + 1) 0,
         img.pix.getD (i * 4 + 2) 0, img.pix.getD (i * 4 + 3) 0⟩ := by
  constructor
  · unfold read256x1PaletteFromPNG
    rw [List.length_map, List.length_range]
  · intro i hi
    unfold read256x1PaletteFromPNG
    rw [List.getD_eq_getElem?_getD, List.getElem?_map, List.getElem?_range hi]
    rfl

/-- Witness for C10 (amended): a 1×1 image with bytes `[9, 8, 7, 6]`
yields the single palette entry `(9, 8, 7, 6)`. -/
theorem palette_reads_width_witness :
    ((read256x1PaletteFromPNG ⟨1, 1, [9, 8, 7, 6]⟩).length = 1 ∧
     ((0 : Nat) < 1 ∧
      (read256x1PaletteFromPNG ⟨1, 1, [9, 8, 7, 6]⟩).getD 0 ⟨0, 0, 0, 0⟩ =
        ⟨9, 8, 7, 6⟩)) :=
  ⟨(palette_reads_width ⟨1, 1, [9, 8, 7, 6]⟩).1,
   by decide,
   ((palette_reads_width ⟨1, 1, [9, 8, 7, 6]⟩).2 0 (by decide)).trans (by decide)⟩

end Vmaxtui
